import Mathlib

/-!
Verification of the nurones-mcp core against its specification.

The Rust sources under `mcp-core/src` are shallowly embedded: pure string
and path manipulation becomes Lean functions on `String` (implemented over
the underlying character lists), `f64` metric arithmetic is modelled by `ℚ`,
machine counters by `Nat`, and every external effect (filesystem, child
processes, HTTP, clock, UUID generation) is an explicit oracle parameter.
-/

namespace Nurones

/-! ## Generic list and string helpers

`isPre a b` is the boolean list-prefix test; `strStartsWith` mirrors Rust
`str::starts_with`, `strDropPre` mirrors `str::strip_prefix`, both working
on the byte/char sequence of the string. -/

def isPre {α : Type} [DecidableEq α] : List α → List α → Bool
  | [], _ => true
  | _ :: _, [] => false
  | a :: as, b :: bs => a = b && isPre as bs

def strStartsWith (s p : String) : Bool := isPre p.data s.data

def strDropPre (s p : String) : Option String :=
  if isPre p.data s.data then some ⟨s.data.drop p.data.length⟩ else none

def strContainsChar (s : String) (c : Char) : Bool := s.data.contains c

/-- Splitting a character list on the separator char, as `String::splitOn "/"`. -/
def splitSlash : List Char → List (List Char)
  | [] => [[]]
  | c :: cs =>
    let r := splitSlash cs
    if c = '/' then [] :: r
    else
      match r with
      | h :: t => (c :: h) :: t
      | [] => [[c]]

/-! ## Path model (security.rs)

Rust `Path::components` drops empty components and interior `.` components;
`Path::starts_with` is a component-wise prefix test; `PathBuf::join` replaces
the base when the argument is absolute.  `path_absolutize::Absolutize`
resolves `.` and `..` (with the parent of the root being the root) and
resolves relative paths against the current working directory, which we pass
explicitly as `cwd`. -/

def pathComps (s : String) : List String :=
  ((splitSlash s.data).map (fun cs => (⟨cs⟩ : String))).filter
    (fun c => c ≠ "" && c ≠ ".")

def normStep (acc : List String) (c : String) : List String :=
  if c = ".." then acc.dropLast else acc ++ [c]

def absolutize (cwd p : String) : String :=
  let full := if strStartsWith p "/" then p else cwd ++ "/" ++ p
  "/" ++ String.intercalate "/" ((pathComps full).foldl normStep [])

def pathStartsWith (p b : String) : Bool := isPre (pathComps b) (pathComps p)

def joinP (b rel : String) : String :=
  if strStartsWith rel "/" then rel else b ++ "/" ++ rel

/-! ## security.rs: resolve_path and is_allowed -/

/-- Loop body of `resolve_path`: first allowlist base whose canonicalized
final component `N` matches the shorthand `/N/...` or `/N` rewrites the
input; later entries are not consulted. -/
def resolveLoop (cwd p : String) : List String → Option String
  | [] => none
  | b :: rest =>
    let ba := absolutize cwd b
    match (pathComps ba).getLast? with
    | some n =>
      match strDropPre p ("/" ++ n ++ "/") with
      | some after => some (joinP ba after)
      | none => if p = "/" ++ n then some ba else resolveLoop cwd p rest
    | none => resolveLoop cwd p rest

/-- `resolve_path` from security.rs.  Note the hardcoded string test: an
absolute path that does not begin with the literal text `/contracts` or
`/workspace` is returned unchanged before any allowlist entry is consulted. -/
def resolve_path (cwd p : String) (allow : List String) : String :=
  if strStartsWith p "/" && !strStartsWith p "/contracts"
      && !strStartsWith p "/workspace" then p
  else (resolveLoop cwd p allow).getD p

/-- Loop over allowlist bases in `is_allowed_with_base`: direct component
prefix match on the absolutized candidate, then the smart-resolution
shorthand on the original input string. -/
def allowLoop (cwd pathIn abs : String) : List String → Bool
  | [] => false
  | b :: rest =>
    let ba := absolutize cwd b
    if pathStartsWith abs ba then true
    else
      match (pathComps ba).getLast? with
      | some n =>
        (match strDropPre pathIn ("/" ++ n ++ "/") with
         | some after => pathStartsWith (joinP ba after) ba
             || allowLoop cwd pathIn abs rest
         | none => (pathIn = "/" ++ n) || allowLoop cwd pathIn abs rest)
      | none => allowLoop cwd pathIn abs rest

def is_allowed_with_base (cwd path : String) (allow : List String)
    (base? : Option String) : Except String Unit :=
  let abs :=
    if strStartsWith path "/" then absolutize cwd path
    else
      match base? with
      | some b => absolutize cwd (b ++ "/" ++ path)
      | none => absolutize cwd path
  if allowLoop cwd path abs allow then .ok ()
  else .error ("Security error: Path '" ++ path ++ "' not in filesystem allowlist")

def is_allowed (cwd path : String) (allow : List String) : Except String Unit :=
  is_allowed_with_base cwd path allow none

/-- Modelled from the spec: the shorthand rewrite of §4.2 step 3 — for the
first canonicalized base `B*` whose final component `N` matches `/N/...` or
`/N`, reconstruct `B* ⊕ suffix`. -/
def specRewrite (cwd p : String) : List String → Option String
  | [] => none
  | b :: rest =>
    let ba := absolutize cwd b
    match (pathComps ba).getLast? with
    | some n =>
      match strDropPre p ("/" ++ n ++ "/") with
      | some suffix => some (ba ++ "/" ++ suffix)
      | none => if p = "/" ++ n then some ba else specRewrite cwd p rest
    | none => specRewrite cwd p rest

/-- Modelled from the spec: invariant 2 of §8 — `is_allowed(p, L)` iff the
absolutized form of `p` (after the shorthand rewrite) has some canonicalized
allowlist base as a path-component prefix. -/
def specIsAllowed (cwd p : String) (L : List String) : Bool :=
  let q := (specRewrite cwd p L).getD p
  L.any (fun b => pathStartsWith (absolutize cwd q) (absolutize cwd b))

/-- Boolean shorthand-match test used to state when the rewrite applies. -/
def shorthandMatches (cwd p b : String) : Bool :=
  match (pathComps (absolutize cwd b)).getLast? with
  | some n => (strDropPre p ("/" ++ n ++ "/")).isSome || p = "/" ++ n
  | none => false

/-! ## types.rs: ContextFrame

Scores modelled by `ℚ` (exact arithmetic in place of `f64`), timestamps by
`Nat`. -/

inductive Stage where
  | dev | staging | prod
deriving DecidableEq

inductive RiskLevel where
  | safe | caution | block
deriving DecidableEq

structure Budgets where
  cpu_ms : Option Nat
  mem_mb : Option Nat
  rps : Option Nat
deriving DecidableEq

structure Flags where
  allow_autotune : Bool
  read_only : Bool
deriving DecidableEq

structure ContextFrame where
  reason_trace_id : String
  tenant_id : String
  stage : Stage
  risk_level : RiskLevel
  novelty_score : Option ℚ
  context_confidence : Option ℚ
  budgets : Option Budgets
  flags : Option Flags
  ts : Nat
deriving DecidableEq

def scoreInRange (q : ℚ) : Bool := decide ((0 : ℚ) ≤ q) && decide (q ≤ 1)

def ContextFrame.validate (c : ContextFrame) : Except String Unit :=
  if c.reason_trace_id = "" then .error "reason_trace_id is required"
  else if c.tenant_id = "" then .error "tenant_id is required"
  else if !c.novelty_score.all scoreInRange then
    .error "novelty_score must be between 0.0 and 1.0"
  else if !c.context_confidence.all scoreInRange then
    .error "context_confidence must be between 0.0 and 1.0"
  else .ok ()

def ContextFrame.can_autotune (c : ContextFrame) : Bool :=
  c.risk_level = RiskLevel.safe
    && decide (c.context_confidence.getD 0 ≥ (6 : ℚ) / 10)
    && (c.flags.map (fun f => f.allow_autotune)).getD true

/-! ## policies.rs: RBAC

`HashMap` lookups are modelled by association-list lookup. -/

structure Policies where
  roles : List (String × List String)
  users : List (String × String)
  fs_allowlist : List String

/-- Rust `trim_end_matches(".*")`: repeatedly removes the suffix `.*`,
implemented on the reversed character list. -/
def trimRevGo : List Char → List Char
  | '*' :: '.' :: t => trimRevGo t
  | l => l

def trimEndDotStar (s : String) : String := ⟨(trimRevGo s.data.reverse).reverse⟩

def strEndsWithDotStar (s : String) : Bool := isPre ['*', '.'] s.data.reverse

def Policies.is_tool_allowed (p : Policies) (user tool : String) : Bool :=
  match p.users.lookup user with
  | none => false
  | some role =>
    match p.roles.lookup role with
    | none => false
    | some allowed_tools =>
      if allowed_tools.contains "*" then true
      else if allowed_tools.contains tool then true
      else allowed_tools.any (fun allowed =>
        strEndsWithDotStar allowed && strStartsWith tool (trimEndDotStar allowed))

/-! ## context.rs: ContextEngine

`f64` metric values are modelled by `ℚ`; the metric `HashMap` by an
association list with in-place replacement; `chrono::Utc::now()` by an
explicit `now : Nat` argument. -/

structure MetricData where
  current_value : ℚ
  baseline : ℚ
  last_update : Nat
  consecutive_successes : Nat
deriving DecidableEq

structure ContextEngine where
  enabled : Bool
  change_cap_pct : Nat
  min_confidence : ℚ

abbrev Metrics := List (String × MetricData)

def insertMetric : Metrics → String → MetricData → Metrics
  | [], k, v => [(k, v)]
  | (k0, v0) :: t, k, v =>
    if k0 = k then (k, v) :: t else (k0, v0) :: insertMetric t k v

def ContextEngine.can_autotune (eng : ContextEngine) (ctx : ContextFrame) : Bool :=
  if !eng.enabled then false
  else ctx.can_autotune && decide (ctx.context_confidence.getD 0 ≥ eng.min_confidence)

/-- `adjust_metric`, returning the adjusted value and the updated metric map. -/
def ContextEngine.adjust_metric (eng : ContextEngine) (ms : Metrics) (key : String)
    (current : ℚ) (ctx : ContextFrame) (now : Nat) : ℚ × Metrics :=
  if !eng.can_autotune ctx then (current, ms)
  else
    let m := (ms.lookup key).getD
      { current_value := current, baseline := current, last_update := now
        consecutive_successes := 0 }
    let max_change := m.baseline * ((eng.change_cap_pct : ℚ) / 100)
    let proposed := current
    let adjusted :=
      if proposed > m.baseline + max_change then m.baseline + max_change
      else if proposed < m.baseline - max_change then m.baseline - max_change
      else proposed
    (adjusted,
      insertMetric ms key { m with current_value := adjusted, last_update := now })

def record_success (ms : Metrics) (key : String) : Metrics :=
  match ms.lookup key with
  | none => ms
  | some m =>
    let m1 := { m with consecutive_successes := m.consecutive_successes + 1 }
    let m2 :=
      if m1.consecutive_successes ≥ 2 then
        { m1 with baseline := m1.current_value, consecutive_successes := 0 }
      else m1
    insertMetric ms key m2

def rollback (ms : Metrics) (key : String) : Option ℚ × Metrics :=
  match ms.lookup key with
  | none => (none, ms)
  | some m =>
    (some m.baseline,
      insertMetric ms key { m with current_value := m.baseline, consecutive_successes := 0 })

/-! ## Dynamic JSON values (serde_json::Value) -/

inductive Json where
  | null
  | bool (b : Bool)
  | num (q : ℚ)
  | str (s : String)
  | arr (xs : List Json)
  | obj (fields : List (String × Json))

def Json.get? : Json → String → Option Json
  | .obj fs, k => fs.lookup k
  | _, _ => none

def Json.asStr? : Json → Option String
  | .str s => some s
  | _ => none

def Json.asObj? : Json → Option (List (String × Json))
  | .obj fs => some fs
  | _ => none

def Json.asArr? : Json → Option (List Json)
  | .arr xs => some xs
  | _ => none

/-- serde_json `Map::insert`: replaces the value of an existing key in
place, appends a fresh key at the end. -/
def objInsert : List (String × Json) → String → Json → List (String × Json)
  | [], k, v => [(k, v)]
  | (k0, v0) :: t, k, v =>
    if k0 = k then (k, v) :: t else (k0, v0) :: objInsert t k v

/-! ## event_bus.rs: InMemoryEventBus

UUID generation is abstracted to a fresh natural number drawn from a
monotone counter `tick` (`Uuid::new_v4` is fresh with overwhelming
probability; freshness is all the code relies on), and `chrono::Utc::now()`
to an oracle `now : Nat → Nat` indexed by that counter.  The subscriber
fan-out does not touch the bus state (handler failures are logged and
swallowed), so it is not represented.  The watermark check only logs and
never sheds, so it is not represented either. -/

structure EventMetadata where
  correlation_id : String
  causation_id : Option String
  user_id : Option String

structure Event where
  stream_id : String
  event_type : String
  data : Json
  metadata : EventMetadata
  context : ContextFrame

structure StoredEvent where
  id : Nat
  stream_id : String
  event_type : String
  version : Nat
  data : Json
  metadata : EventMetadata
  context : ContextFrame
  timestamp : Nat

structure EventResponse where
  event_id : Nat
  stream_id : String
  version : Nat
  timestamp : Nat
deriving DecidableEq

structure BusState where
  events : List StoredEvent
  correlations : List (String × Nat)
  pending : List Event
  tick : Nat

structure BusWorld where
  now : Nat → Nat

def batchSize : Nat := 64

def initialBus : BusState :=
  { events := [], correlations := [], pending := [], tick := 0 }

def check_duplicate (st : BusState) (correlation_id : String) : Option Nat :=
  st.correlations.lookup correlation_id

def respOf (s : StoredEvent) : EventResponse :=
  { event_id := s.id, stream_id := s.stream_id, version := s.version
    timestamp := s.timestamp }

/-- Fresh-storage path of `publish_internal`: validate, assign id and
per-stream version, append, record the correlation id. -/
def publishFresh (w : BusWorld) (st : BusState) (e : Event) :
    Except String (EventResponse × BusState) :=
  match e.context.validate with
  | .error er => .error er
  | .ok _ =>
    let event_id := st.tick
    let timestamp := w.now st.tick
    let version := (st.events.filter (fun s => s.stream_id = e.stream_id)).length + 1
    let stored : StoredEvent :=
      { id := event_id, stream_id := e.stream_id, event_type := e.event_type
        version := version, data := e.data, metadata := e.metadata
        context := e.context, timestamp := timestamp }
    .ok (respOf stored,
      { st with
          events := st.events ++ [stored]
          correlations := (e.metadata.correlation_id, event_id) :: st.correlations
          tick := st.tick + 1 })

def publish_internal (w : BusWorld) (st : BusState) (e : Event) :
    Except String (EventResponse × BusState) :=
  match check_duplicate st e.metadata.correlation_id with
  | some existing_id =>
    match st.events.find? (fun s => s.id = existing_id) with
    | some stored => .ok (respOf stored, st)
    | none => publishFresh w st e
  | none => publishFresh w st e

/-- Sequential `publish_internal` over a drained batch (`flush_batch`). -/
def processBatch (w : BusWorld) (st : BusState) :
    List Event → Except String (List EventResponse × BusState)
  | [] => .ok ([], st)
  | e :: es =>
    match publish_internal w st e with
    | .error er => .error er
    | .ok (r, st1) =>
      match processBatch w st1 es with
      | .error er => .error er
      | .ok (rs, st2) => .ok (r :: rs, st2)

/-- Outer `publish`: append to the pending batch; flush through
`publish_internal` when the batch reaches `batchSize` (returning the last
response, whose `unwrap` is modelled as an error on the impossible empty
case), otherwise publish the single event immediately. -/
def publish (w : BusWorld) (st : BusState) (e : Event) :
    Except String (EventResponse × BusState) :=
  let pending1 := st.pending ++ [e]
  if pending1.length ≥ batchSize then
    match processBatch w { st with pending := [] } pending1 with
    | .error er => .error er
    | .ok (rs, st1) =>
      match rs.getLast? with
      | some r => .ok (r, st1)
      | none => .error "unwrap of empty flush responses"
  else
    publish_internal w { st with pending := pending1 } e

def publishSeq (w : BusWorld) (st : BusState) :
    List Event → Except String (List EventResponse × BusState)
  | [] => .ok ([], st)
  | e :: es =>
    match publish w st e with
    | .error er => .error er
    | .ok (r, st1) =>
      match publishSeq w st1 es with
      | .error er => .error er
      | .ok (rs, st2) => .ok (r :: rs, st2)

/-! ## tool_executor.rs: InMemoryToolExecutor

External effects — the wasmtime child process, the real filesystem, the
HTTP client, environment variables, spawned processes, the Node subprocess,
the monotonic clock, and JSON text parsing of child output — are oracles
collected in `ExecWorld`; every theorem quantifies over them.  `execute`
additionally reports whether the WASI sandbox driver was invoked. -/

structure ToolManifest where
  name : String
  version : String
  entry : String
  permissions : List String
  description : String

structure ToolResult where
  success : Bool
  output : Option Json
  error : Option String
  execution_time : Nat
  context_used : ContextFrame

structure HttpResp where
  status : Nat
  headers : List (String × String)
  body : String

structure ProcOutput where
  stdout : String
  stderr : String
  success : Bool
  exit_code : Option Int

structure ExecWorld where
  cwd : String
  wasiExec : String → Json → List String → Except String String
  parseJson : String → Option Json
  glob : String → Except String (List String)
  readFile : String → Except String String
  readDir : String → Except String (List (String × Bool × Nat))
  metaOf : String → Option (Bool × Nat)
  httpSend : String → String → List (String × String) → Option Json → Except String HttpResp
  envVar : String → Option String
  runProcess : String → List String → Except String ProcOutput
  nodeCompress : Json → ContextFrame → Except String ProcOutput
  elapsed : Nat
  nowStr : String

structure Executor where
  tools : List (String × ToolManifest)
  fs_allowlist : List String

/-- Rust `trim_start_matches`: repeatedly removes the given non-empty
leading pattern; fueled by the string length, which bounds the number of
removals. -/
def dropPreRepGo (p : List Char) : Nat → List Char → List Char
  | 0, s => s
  | fuel + 1, s =>
    if p ≠ [] && isPre p s then dropPreRepGo p fuel (s.drop p.length) else s

def dropPreRep (s p : String) : String := ⟨dropPreRepGo p.data s.data.length s.data⟩

def strToUpper (s : String) : String := ⟨s.data.map Char.toUpper⟩

/-- Rust `str::rsplit_once('/')`, recovered from the slash chunks. -/
def rsplitOnceSlash (s : String) : Option (String × String) :=
  match (splitSlash s.data).map (fun cs => (⟨cs⟩ : String)) with
  | [] => none
  | [_] => none
  | parts => some (String.intercalate "/" parts.dropLast, (parts.getLast?).getD "")

def fileNameOf (p : String) : String := ((pathComps p).getLast?).getD "unknown"

def okR (w : ExecWorld) (ctx : ContextFrame) (out : Json) : ToolResult :=
  { success := true, output := some out, error := none
    execution_time := w.elapsed, context_used := ctx }

def errR (w : ExecWorld) (ctx : ContextFrame) (msg : String) : ToolResult :=
  { success := false, output := none, error := some msg
    execution_time := w.elapsed, context_used := ctx }

/-- `expand_wildcard_path` from security.rs; the glob oracle returns the
matched paths (per-entry iterator errors are logged and skipped by the
code, so they are folded away) and each match is re-checked against the
allowlist. -/
def expand_wildcard_path (w : ExecWorld) (path : String) (allow : List String) :
    Except String (List String) :=
  if !strContainsChar path '*' && !strContainsChar path '?' then
    .ok [resolve_path w.cwd path allow]
  else
    match rsplitOnceSlash path with
    | none => .error ("Invalid path: " ++ path)
    | some (dir_part, file_pattern) =>
      let resolved_dir := resolve_path w.cwd dir_part allow
      let pattern := resolved_dir ++ "/" ++ file_pattern
      match w.glob pattern with
      | .error e => .error ("Invalid wildcard pattern '" ++ pattern ++ "': " ++ e)
      | .ok entries =>
        let ms := entries.filter (fun m =>
          match is_allowed w.cwd m allow with
          | .ok _ => true
          | .error _ => false)
        if ms.isEmpty then
          .error ("No files matched pattern '" ++ path ++ "'. Resolved pattern: '"
            ++ pattern ++ "'. Check if files exist.")
        else .ok ms

def runWasi (w : ExecWorld) (ex : Executor) (wasm_path : String) (inp : Json)
    (ctx : ContextFrame) : Except String (ToolResult × Bool) :=
  match w.wasiExec wasm_path inp ex.fs_allowlist with
  | .ok output_str =>
    let output := (w.parseJson output_str).getD (Json.obj [("result", .str output_str)])
    .ok ({ success := true, output := some output, error := none
           execution_time := w.elapsed, context_used := ctx }, true)
  | .error e =>
    .ok ({ success := false, output := none
           error := some ("WASI execution failed: " ++ e)
           execution_time := w.elapsed, context_used := ctx }, true)

/-- Per-file read loop of the `fs.read` wildcard aggregation; unreadable
files are logged and skipped. -/
def wildcardReadFiles (w : ExecWorld) : List String → List Json
  | [] => []
  | f :: fs =>
    match w.readFile f with
    | .ok content =>
      Json.obj [("path", .str f), ("name", .str (fileNameOf f)),
        ("content", .str content), ("size", .num content.utf8ByteSize)]
        :: wildcardReadFiles w fs
    | .error _ => wildcardReadFiles w fs

def wildcardListEntries (w : ExecWorld) (files : List String) : List Json :=
  files.map (fun p =>
    let md := w.metaOf p
    Json.obj [("name", .str (fileNameOf p)), ("path", .str p),
      ("is_dir", .bool ((md.map Prod.fst).getD false)),
      ("size", .num ((md.map Prod.snd).getD 0))])

/-- The `wasm://` branch of `execute`: for `fs.*` tools with a `path`
input, wildcard expansion (with its `fs.read`/`fs.list` aggregations) or
allowlist check plus path rewrite; then the WASI sandbox. -/
def execWasm (w : ExecWorld) (ex : Executor) (tool_id : String) (input : Json)
    (ctx : ContextFrame) (entry : String) : Except String (ToolResult × Bool) :=
  let wasm_path := dropPreRep entry "wasm://"
  match (if strStartsWith tool_id "fs." then input.get? "path" >>= Json.asStr? else none) with
  | some path =>
    if strContainsChar path '*' || strContainsChar path '?' then
      match expand_wildcard_path w path ex.fs_allowlist with
      | .ok matched_files =>
        if tool_id = "fs.read" then
          .ok (okR w ctx (Json.obj [("pattern", .str path),
            ("matched_count", .num matched_files.length),
            ("files", .arr (wildcardReadFiles w matched_files))]), false)
        else if tool_id = "fs.list" then
          .ok (okR w ctx (Json.obj [("pattern", .str path),
            ("matched_count", .num matched_files.length),
            ("entries", .arr (wildcardListEntries w matched_files))]), false)
        else runWasi w ex wasm_path input ctx
      | .error e =>
        .ok (errR w ctx ("Wildcard expansion failed: " ++ e
          ++ ". Use fs.list to see available files first."), false)
    else
      match is_allowed w.cwd path ex.fs_allowlist with
      | .error e => .error ("Security error: " ++ e)
      | .ok _ =>
        let resolved := resolve_path w.cwd path ex.fs_allowlist
        let resolved_input :=
          match input with
          | .obj fs => Json.obj (objInsert fs "path" (.str resolved))
          | other => other
        runWasi w ex wasm_path resolved_input ctx
  | none => runWasi w ex wasm_path input ctx

/-- `execute_session_compression`: the merged JSON payload handed to the
Node CLI on stdin; serialization of the embedded context frame is folded
into the subprocess oracle, which receives the frame alongside the
payload. -/
def execSessionCompression (w : ExecWorld) (input : Json) (ctx : ContextFrame) :
    Except String (ToolResult × Bool) :=
  let full_input := Json.obj
    [("sources", (input.get? "sources").getD (Json.arr [])),
     ("char_limit", (input.get? "char_limit").getD (Json.num 1000)),
     ("preserve_markup", (input.get? "preserve_markup").getD (Json.bool false)),
     ("timezone", (input.get? "timezone").getD (Json.str "Australia/Adelaide")),
     ("output_dir", (input.get? "output_dir").getD (Json.str "/tmp/summaries")),
     ("filename_scheme", (input.get? "filename_scheme").getD (Json.str "date_session_len")),
     ("dry_run", (input.get? "dry_run").getD (Json.bool false)),
     ("reason_trace_id", Json.str ctx.reason_trace_id),
     ("tenant_id", Json.str ctx.tenant_id)]
  match w.nodeCompress full_input ctx with
  | .error e => .error e
  | .ok out =>
    if out.success then
      let result := (w.parseJson out.stdout).getD (Json.obj [("raw_output", .str out.stdout)])
      .ok (okR w ctx result, false)
    else
      .ok (errR w ctx ("Execution failed: " ++ out.stderr), false)

/-- The built-in native handler table keyed on `tool_id`, with its
fallback. -/
def execBuiltin (w : ExecWorld) (ex : Executor) (tool_id : String) (input : Json)
    (ctx : ContextFrame) : Except String (ToolResult × Bool) :=
  match tool_id with
  | "fs.read" =>
    match input.get? "path" >>= Json.asStr? with
    | none => .error "fs.read requires 'path' parameter"
    | some path =>
      match is_allowed w.cwd path ex.fs_allowlist with
      | .error e => .error ("Security error: " ++ e)
      | .ok _ =>
        match w.readFile path with
        | .ok content =>
          .ok (okR w ctx (Json.obj [("content", .str content), ("path", .str path),
            ("size", .num content.utf8ByteSize)]), false)
        | .error e => .ok (errR w ctx ("Failed to read file: " ++ e), false)
  | "fs.list" =>
    let path := ((input.get? "path" >>= Json.asStr?)).getD "."
    match is_allowed w.cwd path ex.fs_allowlist with
    | .error e => .error ("Security error: " ++ e)
    | .ok _ =>
      match w.readDir path with
      | .ok entries =>
        .ok (okR w ctx (Json.obj [("path", .str path),
          ("entries", .arr (entries.map (fun en =>
            Json.obj [("name", .str en.1), ("is_dir", .bool en.2.1),
              ("size", .num en.2.2)])))]), false)
      | .error e => .ok (errR w ctx ("Failed to list directory: " ++ e), false)
  | "http.request" =>
    match input.get? "url" >>= Json.asStr? with
    | none => .error "http.request requires 'url' parameter"
    | some url =>
      let method := ((input.get? "method" >>= Json.asStr?)).getD "GET"
      let body := input.get? "body"
      let m := strToUpper method
      let m1 := if m = "GET" || m = "POST" || m = "PUT" || m = "DELETE" then m else "GET"
      let headers :=
        match input.get? "headers" >>= Json.asObj? with
        | some hs => hs.filterMap (fun kv => (kv.2.asStr?).map (fun v => (kv.1, v)))
        | none => []
      match w.httpSend url m1 headers body with
      | .ok resp =>
        .ok ({ success := decide (resp.status < 400)
               output := some (Json.obj [("status", .num resp.status),
                 ("headers", .obj (resp.headers.map (fun kv => (kv.1, Json.str kv.2)))),
                 ("body", .str resp.body)])
               error := none, execution_time := w.elapsed, context_used := ctx }, false)
      | .error e => .ok (errR w ctx ("HTTP request failed: " ++ e), false)
  | "fetch.url" =>
    match input.get? "url" >>= Json.asStr? with
    | none => .error "fetch.url requires 'url' parameter"
    | some url =>
      match w.httpSend url "GET" [] none with
      | .ok resp =>
        .ok (okR w ctx (Json.obj [("url", .str url), ("content", .str resp.body),
          ("length", .num resp.body.utf8ByteSize)]), false)
      | .error e => .ok (errR w ctx ("Fetch failed: " ++ e), false)
  | "env.get" =>
    match input.get? "key" >>= Json.asStr? with
    | none => .error "env.get requires 'key' parameter"
    | some key =>
      match w.envVar key with
      | some value =>
        .ok (okR w ctx (Json.obj [("key", .str key), ("value", .str value)]), false)
      | none =>
        .ok (errR w ctx ("Environment variable '" ++ key ++ "' not found"), false)
  | "process.execute" =>
    match input.get? "command" >>= Json.asStr? with
    | none => .error "process.execute requires 'command' parameter"
    | some command =>
      let args := (((input.get? "args" >>= Json.asArr?)).getD []).filterMap Json.asStr?
      match w.runProcess command args with
      | .ok out =>
        .ok ({ success := out.success
               output := some (Json.obj [("stdout", .str out.stdout),
                 ("stderr", .str out.stderr),
                 ("exit_code", match out.exit_code with
                   | some c => Json.num c
                   | none => Json.null)])
               error := if !out.success then some out.stderr else none
               execution_time := w.elapsed, context_used := ctx }, false)
      | .error e => .ok (errR w ctx ("Process execution failed: " ++ e), false)
  | "db.query" =>
    .ok (errR w ctx "Database not configured. Set DATABASE_URL environment variable.", false)
  | "db.execute" =>
    .ok (errR w ctx "Database not configured. Set DATABASE_URL environment variable.", false)
  | "db.schema" =>
    .ok (errR w ctx "Database not configured. Set DATABASE_URL environment variable.", false)
  | "embedding.generate" =>
    .ok (errR w ctx "AI tools require OPENAI_API_KEY environment variable.", false)
  | "completion.stream" =>
    .ok (errR w ctx "AI tools require OPENAI_API_KEY environment variable.", false)
  | "telemetry.push" =>
    .ok (okR w ctx (Json.obj [("pushed", .bool true), ("timestamp", .str w.nowStr)]), false)
  | _ => .ok (errR w ctx ("Tool '" ++ tool_id ++ "' not implemented"), false)

/-- `InMemoryToolExecutor::execute`.  The returned boolean records whether
the WASI sandbox driver (`wasi_runner.exec`) was invoked.  Note that the
read-only gate sits after the `wasm://` and `native://` branches, which
return early. -/
def execute (w : ExecWorld) (ex : Executor) (tool_id : String) (input : Json)
    (context : ContextFrame) : Except String (ToolResult × Bool) :=
  match context.validate with
  | .error e => .error e
  | .ok _ =>
    match ex.tools.lookup tool_id with
    | none => .error ("Tool not found: " ++ tool_id)
    | some tool =>
      if strStartsWith tool.entry "wasm://" then
        execWasm w ex tool_id input context tool.entry
      else if strStartsWith tool.entry "native://" then
        (if tool_id = "session.compress" then execSessionCompression w input context
         else .ok (errR w context ("Native tool not implemented: " ++ tool_id), false))
      else if strStartsWith tool_id "fs."
          && ((context.flags.map (fun f => f.read_only)).getD false) then
        (if tool_id = "fs.write" then
          .ok (errR w context "Write operation blocked by read_only flag", false)
         else execBuiltin w ex tool_id input context)
      else execBuiltin w ex tool_id input context

/-! ## Verification-side definitions -/

/-- One allowlist entry's acceptance test, mirroring the branches of one
iteration of `allowLoop`. -/
def acceptsBase (cwd pathIn abs b : String) : Bool :=
  let ba := absolutize cwd b
  pathStartsWith abs ba ||
    (match (pathComps ba).getLast? with
     | some n =>
       (match strDropPre pathIn ("/" ++ n ++ "/") with
        | some after => pathStartsWith (joinP ba after) ba
        | none => pathIn = "/" ++ n)
     | none => false)

/-- Splits a pattern of the shape `<pre>.*` into its stem. -/
def dropDotStarSuffix (s : String) : Option String :=
  if strEndsWithDotStar s then some ⟨(s.data.reverse.drop 2).reverse⟩ else none

/-- Modelled from the spec: `is_tool_allowed` per §4.7 — `*` allows
everything, an exact string allows the exact tool id, and `<prefix>.*`
allows any tool id that begins with `<prefix>.` (the stem followed by a
dot); unknown user or role denies. -/
def claimToolAllowed (p : Policies) (user tool : String) : Bool :=
  match p.users.lookup user with
  | none => false
  | some role =>
    match p.roles.lookup role with
    | none => false
    | some pats =>
      pats.contains "*" || pats.contains tool ||
        pats.any (fun pat =>
          match dropDotStarSuffix pat with
          | some stem => strStartsWith tool (stem ++ ".")
          | none => false)

/-- Fixture for the C7 counterexample: a context engine with a 10% cap and
no confidence floor. -/
def c7eng : ContextEngine := { enabled := true, change_cap_pct := 10, min_confidence := 0 }

def c7ctx : ContextFrame :=
  { reason_trace_id := "r", tenant_id := "t", stage := .dev, risk_level := .safe
    novelty_score := none, context_confidence := some 1, budgets := none
    flags := none, ts := 0 }

/-- Fixture: a metric whose stored baseline is negative (reachable by first
observing a negative value). -/
def c7ms : Metrics :=
  [("m", { current_value := -100, baseline := -100, last_update := 0
           consecutive_successes := 0 })]

/-- Fixture for the C8 counterexample: one role with the single pattern
`fs.*`. -/
def c8pol : Policies :=
  { roles := [("r", ["fs.*"])], users := [("u", "r")], fs_allowlist := [] }

def c9m0 : MetricData :=
  { current_value := 100, baseline := 90, last_update := 3, consecutive_successes := 0 }

/-- The stored event a fresh publish appends. -/
def mkStored (w : BusWorld) (st : BusState) (e : Event) : StoredEvent :=
  { id := st.tick, stream_id := e.stream_id, event_type := e.event_type
    version := (st.events.filter (fun s => s.stream_id = e.stream_id)).length + 1
    data := e.data, metadata := e.metadata, context := e.context
    timestamp := w.now st.tick }

/-- The bus state after a fresh publish appends its stored event. -/
def afterStore (w : BusWorld) (st : BusState) (e : Event) : BusState :=
  { st with
      events := st.events ++ [mkStored w st e]
      correlations := (e.metadata.correlation_id, st.tick) :: st.correlations
      tick := st.tick + 1 }

/-- Reachable-state invariant of the bus: every pending event's correlation
id is recorded, every recorded id belongs to a stored event, stored ids are
below the freshness counter, and stored ids are pairwise distinct. -/
def WFBus (st : BusState) : Prop :=
  (∀ e ∈ st.pending, (st.correlations.lookup e.metadata.correlation_id).isSome)
  ∧ (∀ c id, st.correlations.lookup c = some id → ∃ s ∈ st.events, s.id = id)
  ∧ (∀ s ∈ st.events, s.id < st.tick)
  ∧ (st.events.map (fun s => s.id)).Nodup

/-- Per-stream version discipline over the stored log: each event's version
is one plus the number of earlier events of the same stream. -/
def versionsConsistent (evts : List StoredEvent) : Prop :=
  ∀ i (h : i < evts.length),
    evts[i].version
      = ((evts.take i).filter (fun x => x.stream_id = evts[i].stream_id)).length + 1

/-! ## Concrete bus fixtures for witnesses -/

def busW : BusWorld := { now := fun t => 100 + t }

def cFrame : ContextFrame :=
  { reason_trace_id := "r1", tenant_id := "t1", stage := .dev, risk_level := .safe
    novelty_score := none, context_confidence := none, budgets := none
    flags := none, ts := 0 }

def ev1 : Event :=
  { stream_id := "s", event_type := "test.event", data := .null
    metadata := { correlation_id := "c1", causation_id := none, user_id := none }
    context := cFrame }

def ev2 : Event :=
  { ev1 with
      metadata := { correlation_id := "c2", causation_id := none, user_id := none } }

def c5S : StoredEvent :=
  { id := 0, stream_id := "s", event_type := "test.event", version := 1
    data := .null, metadata := ev1.metadata, context := cFrame, timestamp := 100 }

def c5r1 : EventResponse :=
  { event_id := 0, stream_id := "s", version := 1, timestamp := 100 }

def c5st1 : BusState :=
  { events := [c5S], correlations := [("c1", 0)], pending := [ev1], tick := 1 }

def c5st2 : BusState := { c5st1 with pending := [ev1, ev1] }

def c6S2 : StoredEvent :=
  { id := 1, stream_id := "s", event_type := "test.event", version := 2
    data := .null, metadata := ev2.metadata, context := cFrame, timestamp := 101 }

def c6stF : BusState :=
  { events := [c5S, c6S2], correlations := [("c2", 1), ("c1", 0)]
    pending := [ev1, ev2], tick := 2 }

/-! ## Result-shape predicate and executor fixtures -/

/-- Shape of a failed ToolResult: error present and output absent, except
the two built-ins that deviate — http.request may carry the HTTP response
as output with no error, and process.execute may carry both the captured
output and the stderr error. -/
def failShape (tid : String) (r : ToolResult) : Prop :=
  r.success = false →
    (r.error.isSome = true ∧ r.output = none)
    ∨ (tid = "http.request" ∧ r.output.isSome = true ∧ r.error = none)
    ∨ (tid = "process.execute" ∧ r.error.isSome = true ∧ r.output.isSome = true)

def c4world : ExecWorld :=
  { cwd := "/h"
    wasiExec := fun _ _ _ => .error "no wasm"
    parseJson := fun _ => none
    glob := fun _ => .error "no glob"
    readFile := fun _ => .error "no file"
    readDir := fun _ => .error "no dir"
    metaOf := fun _ => none
    httpSend := fun _ _ _ _ => .ok { status := 404, headers := [], body := "nf" }
    envVar := fun _ => none
    runProcess := fun _ _ =>
      .ok { stdout := "", stderr := "boom", success := false, exit_code := some 1 }
    nodeCompress := fun _ _ => .error "no node"
    elapsed := 7
    nowStr := "now" }

def c4ex : Executor :=
  { tools :=
      [("http.request",
        { name := "http.request", version := "1", entry := "builtin://http"
          permissions := [], description := "" }),
       ("process.execute",
        { name := "process.execute", version := "1", entry := "builtin://proc"
          permissions := [], description := "" }),
       ("db.query",
        { name := "db.query", version := "1", entry := "builtin://db"
          permissions := [], description := "" })]
    fs_allowlist := ["/workspace"] }

def c4input : Json := Json.obj [("url", .str "http://x")]

def c4pinput : Json := Json.obj [("command", .str "sh")]

def c1world : ExecWorld := { c4world with wasiExec := fun _ _ _ => .ok "done" }

def c1ex : Executor :=
  { tools :=
      [("fs.write",
        { name := "fs.write", version := "1.0.0", entry := "wasm://fs-write.wasm"
          permissions := ["write"], description := "Write file" })]
    fs_allowlist := ["/workspace", "/tmp"] }

def c1ctx : ContextFrame :=
  { cFrame with flags := some { allow_autotune := true, read_only := true } }

def c1result : ToolResult :=
  { success := true, output := some (Json.obj [("result", Json.str "done")])
    error := none, execution_time := 7, context_used := c1ctx }

def c7msPos : Metrics :=
  [("m", { current_value := 100, baseline := 100, last_update := 0
           consecutive_successes := 0 })]

def c7ctxBlocked : ContextFrame := { c7ctx with risk_level := .block }

/-! ## Helper lemmas -/

theorem isPre_refl_append {α : Type} [DecidableEq α] (a b : List α) :
    isPre a (a ++ b) = true := by
  induction a with
  | nil => rfl
  | cons x xs ih => simp [isPre, ih]

theorem strDropPre_concat (p r : String) : strDropPre (p ++ r) p = some r := by
  unfold strDropPre
  rw [String.data_append, isPre_refl_append]
  simp [List.drop_left]

theorem splitSlash_ne_nil (l : List Char) : splitSlash l ≠ [] := by
  cases l with
  | nil => simp [splitSlash]
  | cons c cs =>
    simp only [splitSlash]
    split
    · simp
    · cases h : splitSlash cs <;> simp

theorem splitSlash_append (x y : List Char) :
    splitSlash (x ++ '/' :: y) = splitSlash x ++ splitSlash y := by
  induction x with
  | nil => simp [splitSlash]
  | cons c cs ih =>
    simp only [List.cons_append, splitSlash]
    have ih2 : splitSlash (cs.append ('/' :: y)) = splitSlash cs ++ splitSlash y := ih
    rw [ih2]
    split
    · simp
    · cases h : splitSlash cs with
      | nil => exact absurd h (splitSlash_ne_nil cs)
      | cons h0 t0 => simp

theorem pathComps_append (a b : String) :
    pathComps (a ++ "/" ++ b) = pathComps a ++ pathComps b := by
  unfold pathComps
  rw [String.data_append, String.data_append]
  have hslash : ("/" : String).data = ['/'] := rfl
  rw [hslash, List.append_assoc]
  simp only [List.singleton_append]
  rw [splitSlash_append, List.map_append, List.filter_append]

theorem pathStartsWith_concat (a b : String) :
    pathStartsWith (a ++ "/" ++ b) a = true := by
  unfold pathStartsWith
  rw [pathComps_append]
  exact isPre_refl_append _ _

theorem strStartsWith_slash (n r : String) :
    strStartsWith ("/" ++ n ++ "/" ++ r) "/" = true := by
  simp [strStartsWith, String.data_append, isPre]

theorem allowLoop_cons (cwd pi abs b : String) (t : List String) :
    allowLoop cwd pi abs (b :: t)
      = (acceptsBase cwd pi abs b || allowLoop cwd pi abs t) := by
  simp only [allowLoop, acceptsBase]
  cases hd : pathStartsWith abs (absolutize cwd b)
  · simp only [hd, Bool.false_or, if_neg Bool.false_ne_true]
    cases hn : (pathComps (absolutize cwd b)).getLast? with
    | none => simp [hn]
    | some n =>
      cases hs : strDropPre pi ("/" ++ n ++ "/") <;> simp [hn, hs]
  · simp [hd]

theorem allowLoop_eq_any (cwd pi abs : String) (L : List String) :
    allowLoop cwd pi abs L = L.any (acceptsBase cwd pi abs) := by
  induction L with
  | nil => rfl
  | cons b t ih => rw [allowLoop_cons, ih, List.any_cons]

theorem is_allowed_ok_of_accepts (cwd p : String) (L : List String) (b : String)
    (hb : b ∈ L) (hacc : ∀ abs, acceptsBase cwd p abs b = true) :
    is_allowed cwd p L = .ok () := by
  unfold is_allowed is_allowed_with_base
  simp only [allowLoop_eq_any]
  rw [List.any_eq_true.mpr ⟨b, hb, hacc _⟩]
  rfl

theorem resolveLoop_skip (cwd p b : String) (t : List String)
    (h : shorthandMatches cwd p b = false) :
    resolveLoop cwd p (b :: t) = resolveLoop cwd p t := by
  unfold shorthandMatches at h
  conv_lhs => rw [resolveLoop]
  cases hn : (pathComps (absolutize cwd b)).getLast? with
  | none => simp [hn]
  | some n =>
    rw [hn] at h
    simp only [Bool.or_eq_false_iff] at h
    cases hs : strDropPre p ("/" ++ n ++ "/") with
    | some a => rw [hs] at h; simp at h
    | none =>
      have hne : ¬(p = "/" ++ n) := by simpa using h.2
      simp [hn, hs, hne]

theorem resolveLoop_none (cwd p : String) (L : List String)
    (h : ∀ b ∈ L, shorthandMatches cwd p b = false) :
    resolveLoop cwd p L = none := by
  induction L with
  | nil => rfl
  | cons b t ih =>
    rw [resolveLoop_skip cwd p b t (h b (List.mem_cons_self b t))]
    exact ih (fun x hx => h x (List.mem_cons_of_mem b hx))

theorem resolveLoop_skipAll (cwd p : String) (L1 M : List String)
    (h : ∀ b ∈ L1, shorthandMatches cwd p b = false) :
    resolveLoop cwd p (L1 ++ M) = resolveLoop cwd p M := by
  induction L1 with
  | nil => rfl
  | cons b t ih =>
    rw [List.cons_append,
      resolveLoop_skip cwd p b (t ++ M) (h b (List.mem_cons_self b t))]
    exact ih (fun x hx => h x (List.mem_cons_of_mem b hx))

theorem resolveLoop_hit (cwd p B N rest : String) (t : List String)
    (hname : (pathComps (absolutize cwd B)).getLast? = some N)
    (hdrop : strDropPre p ("/" ++ N ++ "/") = some rest) :
    resolveLoop cwd p (B :: t) = some (joinP (absolutize cwd B) rest) := by
  unfold resolveLoop
  simp [hname, hdrop]

/-! ## Claim C9 -/

/-- Claim C9: `record_success(k)` for a key never observed by
`adjust_metric` is a no-op — it creates no metric entry and leaves the map
unchanged; an existing key has its consecutive-success counter incremented,
with baseline promotion and counter reset once the counter reaches 2. -/
theorem claim_c9_record_success_frame (ms : Metrics) (k : String) :
    (ms.lookup k = none → record_success ms k = ms)
    ∧ ∀ m, ms.lookup k = some m →
        record_success ms k = insertMetric ms k
          (if m.consecutive_successes + 1 ≥ 2 then
            { m with baseline := m.current_value, consecutive_successes := 0 }
          else { m with consecutive_successes := m.consecutive_successes + 1 }) := by
  constructor
  · intro h
    unfold record_success
    rw [h]
  · intro m hm
    unfold record_success
    rw [hm]

/-- Witness for C9 at concrete inputs. -/
theorem claim_c9_witness :
    record_success [] "m" = []
    ∧ record_success [("m", c9m0)] "m"
        = [("m", { c9m0 with consecutive_successes := 1 })] := by
  refine ⟨(claim_c9_record_success_frame [] "m").1 rfl, ?_⟩
  rw [(claim_c9_record_success_frame [("m", c9m0)] "m").2 c9m0 rfl]
  rfl

/-! ## Claim C7 -/

/-- Counterexample to C7 as stated: with an existing negative baseline
`b = -100` and cap `p = 10`, autotune is permitted yet the adjusted value
`-110` does not lie in `[b - b*p/100, b + b*p/100] = [-90, -110]` (the
bounds invert), and the observed value `-95` is not returned unchanged
either. -/
theorem claim_c7_counterexample :
    c7eng.can_autotune c7ctx = true
    ∧ (c7eng.adjust_metric c7ms "m" (-95) c7ctx 0).1 = -110
    ∧ (c7eng.adjust_metric c7ms "m" (-95) c7ctx 0).1 ∉
        Set.Icc ((-100 : ℚ) - (-100) * ((10 : ℚ) / 100))
          ((-100 : ℚ) + (-100) * ((10 : ℚ) / 100)) := by
  have hcan : c7eng.can_autotune c7ctx = true := by
    simp [c7eng, c7ctx, ContextEngine.can_autotune, ContextFrame.can_autotune]
    norm_num
  have hlk : c7ms.lookup "m" = some
      { current_value := -100, baseline := -100, last_update := 0
        consecutive_successes := 0 } := rfl
  have hval : (c7eng.adjust_metric c7ms "m" (-95) c7ctx 0).1 = -110 := by
    unfold ContextEngine.adjust_metric
    rw [hcan, hlk]
    simp only [Bool.not_true, Bool.false_eq_true, if_false, Option.getD_some]
    rw [if_pos (by simp [c7eng]; norm_num)]
    simp [c7eng]
    norm_num
  refine ⟨hcan, hval, ?_⟩
  rw [hval]
  simp only [Set.mem_Icc, not_and_or, not_le]
  left
  norm_num

/-- Claim C7 (amended): when autotune is not permitted, `adjust_metric`
returns the observed value unchanged and records nothing; when permitted
and the existing baseline `b` is nonnegative, the result lies in
`[b - b*p/100, b + b*p/100]`, equals the observed value when that is
already in range, and is stored as the metric's current value. -/
theorem claim_c7_adjust_metric (eng : ContextEngine) (ms : Metrics) (k : String)
    (v : ℚ) (ctx : ContextFrame) (now : Nat) (m : MetricData)
    (hm : ms.lookup k = some m) :
    (eng.can_autotune ctx = false → eng.adjust_metric ms k v ctx now = (v, ms))
    ∧ (eng.can_autotune ctx = true → 0 ≤ m.baseline →
        (eng.adjust_metric ms k v ctx now).1 ∈
          Set.Icc (m.baseline - m.baseline * ((eng.change_cap_pct : ℚ) / 100))
            (m.baseline + m.baseline * ((eng.change_cap_pct : ℚ) / 100))
        ∧ (v ∈ Set.Icc (m.baseline - m.baseline * ((eng.change_cap_pct : ℚ) / 100))
              (m.baseline + m.baseline * ((eng.change_cap_pct : ℚ) / 100)) →
            (eng.adjust_metric ms k v ctx now).1 = v)
        ∧ (eng.adjust_metric ms k v ctx now).2 = insertMetric ms k
            { m with current_value := (eng.adjust_metric ms k v ctx now).1
                     last_update := now }) := by
  constructor
  · intro h
    unfold ContextEngine.adjust_metric
    rw [h]
    rfl
  · intro h hb
    have hd : 0 ≤ m.baseline * ((eng.change_cap_pct : ℚ) / 100) :=
      mul_nonneg hb (by positivity)
    have hstep : eng.adjust_metric ms k v ctx now =
        (if v > m.baseline + m.baseline * ((eng.change_cap_pct : ℚ) / 100) then
          m.baseline + m.baseline * ((eng.change_cap_pct : ℚ) / 100)
         else if v < m.baseline - m.baseline * ((eng.change_cap_pct : ℚ) / 100) then
          m.baseline - m.baseline * ((eng.change_cap_pct : ℚ) / 100)
         else v,
         insertMetric ms k
           { m with
               current_value :=
                 if v > m.baseline + m.baseline * ((eng.change_cap_pct : ℚ) / 100) then
                   m.baseline + m.baseline * ((eng.change_cap_pct : ℚ) / 100)
                 else if v < m.baseline - m.baseline * ((eng.change_cap_pct : ℚ) / 100) then
                   m.baseline - m.baseline * ((eng.change_cap_pct : ℚ) / 100)
                 else v
               last_update := now }) := by
      unfold ContextEngine.adjust_metric
      rw [h, hm]
      rfl
    rw [hstep]
    refine ⟨?_, ?_, rfl⟩
    · simp only [Set.mem_Icc]
      split_ifs with h1 h2
      · constructor <;> linarith
      · constructor <;> linarith
      · push_neg at h1 h2
        constructor <;> linarith
    · intro hv
      simp only [Set.mem_Icc] at hv
      split_ifs with h1 h2
      · linarith [hv.2]
      · linarith [hv.1]
      · rfl

/-- Witness for the amended C7 at the spec's own S3 numbers: baseline 100,
cap 10%, observed 120 clamps to 110 and is stored. -/
theorem claim_c7_witness :
    (c7eng.adjust_metric c7msPos "m" 120 c7ctx 1).1 ∈ Set.Icc (90 : ℚ) 110
    ∧ c7eng.adjust_metric c7msPos "m" 120 c7ctxBlocked 1 = (120, c7msPos) := by
  have hcan : c7eng.can_autotune c7ctx = true := by
    simp [c7eng, c7ctx, ContextEngine.can_autotune, ContextFrame.can_autotune]
    norm_num
  have hblk : c7eng.can_autotune c7ctxBlocked = false := by
    simp [c7eng, c7ctxBlocked, c7ctx, ContextEngine.can_autotune,
      ContextFrame.can_autotune]
  constructor
  · have h := (claim_c7_adjust_metric c7eng c7msPos "m" 120 c7ctx 1
      { current_value := 100, baseline := 100, last_update := 0
        consecutive_successes := 0 } rfl).2 hcan (by norm_num)
    have h1 := h.1
    simp only [c7eng] at h1
    norm_num at h1 ⊢
    exact h1
  · exact (claim_c7_adjust_metric c7eng c7msPos "m" 120 c7ctxBlocked 1
      { current_value := 100, baseline := 100, last_update := 0
        consecutive_successes := 0 } rfl).1 hblk

/-! ## Claim C8 -/

/-- Counterexample to C8 as stated: the pattern `fs.*` admits the tool id
`fsx`, which does not begin with `fs.` — the code strips the `.*` suffix
and tests a bare string prefix. -/
theorem claim_c8_counterexample :
    c8pol.is_tool_allowed "u" "fsx" = true
    ∧ claimToolAllowed c8pol "u" "fsx" = false := ⟨rfl, rfl⟩

/-- Claim C8 (amended): `is_tool_allowed(u, t)` is true iff `u` maps to a
role whose pattern list contains `*`, or contains `t` exactly, or contains
a pattern ending in `.*` such that `t` begins with the pattern with all
trailing `.*` occurrences removed (the dot itself is not required);
unknown user or unknown role always denies. -/
theorem claim_c8_is_tool_allowed (p : Policies) (u t : String) :
    p.is_tool_allowed u t = true ↔
      ∃ role pats, p.users.lookup u = some role
        ∧ p.roles.lookup role = some pats
        ∧ ("*" ∈ pats ∨ t ∈ pats ∨
            ∃ pat ∈ pats, strEndsWithDotStar pat = true
              ∧ strStartsWith t (trimEndDotStar pat) = true) := by
  unfold Policies.is_tool_allowed
  cases hu : p.users.lookup u with
  | none => simp [hu]
  | some role =>
    cases hr : p.roles.lookup role with
    | none => simp [hr]
    | some pats =>
      simp only [hu, hr, Option.some.injEq]
      constructor
      · intro hok
        refine ⟨role, pats, rfl, hr, ?_⟩
        by_cases h1 : pats.contains "*"
        · exact Or.inl (by simpa using h1)
        · by_cases h2 : pats.contains t
          · exact Or.inr (Or.inl (by simpa using h2))
          · rw [if_neg h1, if_neg h2] at hok
            obtain ⟨pat, hmem, hpat⟩ := List.any_eq_true.mp hok
            rw [Bool.and_eq_true] at hpat
            exact Or.inr (Or.inr ⟨pat, hmem, hpat.1, hpat.2⟩)
      · rintro ⟨role2, pats2, hrole2, hpats2, hcase⟩
        subst hrole2
        rw [hr] at hpats2
        injection hpats2 with hp2
        subst hp2
        rcases hcase with h1 | h2 | ⟨pat, hmem, he, hs⟩
        · rw [if_pos (by simpa using h1)]
        · by_cases hstar : pats.contains "*"
          · rw [if_pos hstar]
          · rw [if_neg hstar, if_pos (by simpa using h2)]
        · by_cases hstar : pats.contains "*"
          · rw [if_pos hstar]
          · rw [if_neg hstar]
            by_cases hexact : pats.contains t
            · rw [if_pos hexact]
            · rw [if_neg hexact]
              exact List.any_eq_true.mpr ⟨pat, hmem, by rw [Bool.and_eq_true]; exact ⟨he, hs⟩⟩

/-! ## Claim C10 -/

/-- Claim C10: `resolve_path` never rejects — for every absolute input for
which no allowlist entry's basename shorthand applies, it returns the input
unchanged even when the path is outside the allowlist; it does no
enforcement of its own. -/
theorem claim_c10_resolve_path_id (cwd p : String) (L : List String)
    (_habs : strStartsWith p "/" = true)
    (h : ∀ b ∈ L, shorthandMatches cwd p b = false) :
    resolve_path cwd p L = p := by
  have hl : resolveLoop cwd p L = none := resolveLoop_none cwd p L h
  unfold resolve_path
  split
  · rfl
  · rw [hl]
    rfl

/-- Witness for C10: a path far outside the allowlist flows through
`resolve_path` untouched. -/
theorem claim_c10_witness :
    resolve_path "/h" "/etc/passwd" ["/workspace", "/tmp"] = "/etc/passwd" :=
  claim_c10_resolve_path_id "/h" "/etc/passwd" ["/workspace", "/tmp"] rfl
    (by decide)

/-! ## Claim C3 -/

/-- Counterexample to C3 as stated: for the allowlist entry
`/tmp/prj/docs` with basename `docs`, `is_allowed` accepts `/docs/a.txt`
but `resolve_path` returns the input unchanged instead of the rewritten
`/tmp/prj/docs/a.txt` — the rewrite is hardcoded to inputs whose text
begins with `/contracts` or `/workspace`, so it does not hold for every
basename `N`. -/
theorem claim_c3_counterexample :
    is_allowed "/h" "/docs/a.txt" ["/tmp/prj/docs"] = .ok ()
    ∧ resolve_path "/h" "/docs/a.txt" ["/tmp/prj/docs"] = "/docs/a.txt"
    ∧ resolve_path "/h" "/docs/a.txt" ["/tmp/prj/docs"] ≠ "/tmp/prj/docs/a.txt" := by
  refine ⟨rfl, rfl, ?_⟩
  decide

/-- Claim C3 (amended): for the first allowlist entry `B` whose
canonicalized basename is `N`, an input `/N/<rest>` (with a non-absolute
remainder) is accepted by `is_allowed`; `resolve_path` rewrites it to
`B* ⊕ rest` only when the input string begins with `/contracts` or
`/workspace`, and returns it unchanged otherwise. -/
theorem claim_c3_shorthand (cwd N rest B : String) (L1 L2 : List String)
    (hname : (pathComps (absolutize cwd B)).getLast? = some N)
    (hfirst : ∀ b ∈ L1, shorthandMatches cwd ("/" ++ N ++ "/" ++ rest) b = false)
    (hrel : strStartsWith rest "/" = false) :
    is_allowed cwd ("/" ++ N ++ "/" ++ rest) (L1 ++ B :: L2) = .ok ()
    ∧ ((strStartsWith ("/" ++ N ++ "/" ++ rest) "/contracts"
          || strStartsWith ("/" ++ N ++ "/" ++ rest) "/workspace") = true →
        resolve_path cwd ("/" ++ N ++ "/" ++ rest) (L1 ++ B :: L2)
          = absolutize cwd B ++ "/" ++ rest)
    ∧ ((strStartsWith ("/" ++ N ++ "/" ++ rest) "/contracts"
          || strStartsWith ("/" ++ N ++ "/" ++ rest) "/workspace") = false →
        resolve_path cwd ("/" ++ N ++ "/" ++ rest) (L1 ++ B :: L2)
          = "/" ++ N ++ "/" ++ rest) := by
  have hdrop : strDropPre ("/" ++ N ++ "/" ++ rest) ("/" ++ N ++ "/") = some rest :=
    strDropPre_concat ("/" ++ N ++ "/") rest
  have hjoin : joinP (absolutize cwd B) rest = absolutize cwd B ++ "/" ++ rest := by
    simp [joinP, hrel]
  refine ⟨?_, ?_, ?_⟩
  · apply is_allowed_ok_of_accepts cwd _ _ B (by simp)
    intro abs
    simp only [acceptsBase, hname, hdrop, hjoin]
    simp [pathStartsWith_concat]
  · intro hgate
    have hresolve : resolveLoop cwd ("/" ++ N ++ "/" ++ rest) (L1 ++ B :: L2)
        = some (joinP (absolutize cwd B) rest) := by
      rw [resolveLoop_skipAll cwd _ L1 (B :: L2) hfirst]
      exact resolveLoop_hit cwd _ B N rest L2 hname hdrop
    have hc : (strStartsWith ("/" ++ N ++ "/" ++ rest) "/"
        && !strStartsWith ("/" ++ N ++ "/" ++ rest) "/contracts"
        && !strStartsWith ("/" ++ N ++ "/" ++ rest) "/workspace") = false := by
      rcases Bool.or_eq_true_iff.mp hgate with h | h <;> simp [h]
    simp only [resolve_path, hc, Bool.false_eq_true, if_false, hresolve,
      Option.getD_some, hjoin]
  · intro hgate
    rw [Bool.or_eq_false_iff] at hgate
    have hc : (strStartsWith ("/" ++ N ++ "/" ++ rest) "/"
        && !strStartsWith ("/" ++ N ++ "/" ++ rest) "/contracts"
        && !strStartsWith ("/" ++ N ++ "/" ++ rest) "/workspace") = true := by
      simp [strStartsWith_slash, hgate.1, hgate.2]
    simp only [resolve_path, hc, if_true]

/-- Witness for the amended C3 at the spec's S4 scenario. -/
theorem claim_c3_witness :
    is_allowed "/h" "/contracts/a/b.txt" ["/tmp/prj/contracts"] = .ok ()
    ∧ resolve_path "/h" "/contracts/a/b.txt" ["/tmp/prj/contracts"]
        = "/tmp/prj/contracts/a/b.txt" := by
  have e1 : ("/" : String) ++ "contracts" ++ "/" ++ "a/b.txt" = "/contracts/a/b.txt" := rfl
  obtain ⟨ha, hb, _⟩ := claim_c3_shorthand "/h" "contracts" "a/b.txt"
    "/tmp/prj/contracts" [] [] rfl (by simp) rfl
  rw [e1] at ha hb
  exact ⟨ha, (hb rfl).trans rfl⟩

/-! ## Claim C2 -/

/-- Refutation input for C2, recorded as a code bug: `is_allowed` accepts
`/contracts/../secret/x` against allowlist `["/tmp/prj/contracts"]`
because the smart-resolution candidate is compared component-wise without
normalization, while the spec-side predicate (absolutize the rewritten
path, then compare) rejects it: the rewritten path absolutizes to
`/tmp/prj/secret/x`, outside every base. -/
theorem claim_c2_code_vs_spec :
    is_allowed "/h" "/contracts/../secret/x" ["/tmp/prj/contracts"] = .ok ()
    ∧ specIsAllowed "/h" "/contracts/../secret/x" ["/tmp/prj/contracts"] = false
    ∧ specRewrite "/h" "/contracts/../secret/x" ["/tmp/prj/contracts"]
        = some ("/tmp/prj/contracts" ++ "/" ++ "../secret/x")
    ∧ absolutize "/h" ("/tmp/prj/contracts" ++ "/" ++ "../secret/x")
        = "/tmp/prj/secret/x" := ⟨rfl, rfl, rfl, rfl⟩

/-! ## Event bus lemmas -/

theorem lookup_cons_isSome {β : Type} (l : List (String × β)) (k c : String) (v : β)
    (h : (l.lookup c).isSome) : (((k, v) :: l).lookup c).isSome := by
  simp only [List.lookup]
  split
  · rfl
  · exact h

theorem publishFresh_ok (w : BusWorld) (st : BusState) (e : Event)
    (hv : e.context.validate = .ok ()) :
    publishFresh w st e = .ok (respOf (mkStored w st e), afterStore w st e) := by
  unfold publishFresh
  rw [hv]
  rfl

theorem find_id_unique (evts : List StoredEvent)
    (hnd : (evts.map (fun s => s.id)).Nodup) (T : StoredEvent) (hT : T ∈ evts) :
    evts.find? (fun s => s.id = T.id) = some T := by
  induction evts with
  | nil => cases hT
  | cons a l ih =>
    rw [List.map_cons, List.nodup_cons] at hnd
    rcases List.mem_cons.mp hT with rfl | hTl
    · rw [List.find?_cons_of_pos _ (by simp)]
    · by_cases hid : a.id = T.id
      · exact absurd (hid ▸ List.mem_map.mpr ⟨T, hTl, rfl⟩) hnd.1
      · rw [List.find?_cons_of_neg _ (by simp [hid])]
        exact ih hnd.2 hTl

theorem publish_internal_seen (w : BusWorld) (st : BusState) (e : Event)
    (T : StoredEvent)
    (hnd : (st.events.map (fun s => s.id)).Nodup)
    (hl : st.correlations.lookup e.metadata.correlation_id = some T.id)
    (hT : T ∈ st.events) :
    publish_internal w st e = .ok (respOf T, st) := by
  unfold publish_internal check_duplicate
  rw [hl]
  simp only [find_id_unique st.events hnd T hT]

theorem processBatch_seen (w : BusWorld) (st : BusState) (l : List Event)
    (hwf2 : ∀ c id, st.correlations.lookup c = some id → ∃ s ∈ st.events, s.id = id)
    (hnd : (st.events.map (fun s => s.id)).Nodup)
    (hall : ∀ ev ∈ l, (st.correlations.lookup ev.metadata.correlation_id).isSome) :
    ∃ rs, processBatch w st l = .ok (rs, st) := by
  induction l with
  | nil => exact ⟨[], rfl⟩
  | cons ev l ih =>
    obtain ⟨i, hi⟩ := Option.isSome_iff_exists.mp (hall ev (List.mem_cons_self ev l))
    obtain ⟨T, hT, hTid⟩ := hwf2 _ _ hi
    obtain ⟨rs, hrs⟩ := ih (fun x hx => hall x (List.mem_cons_of_mem ev hx))
    refine ⟨respOf T :: rs, ?_⟩
    unfold processBatch
    simp only [publish_internal_seen w st ev T hnd (by rw [hTid]; exact hi) hT, hrs]

theorem processBatch_append (w : BusWorld) (st : BusState) (l1 l2 : List Event) :
    processBatch w st (l1 ++ l2)
      = match processBatch w st l1 with
        | .error er => .error er
        | .ok (rs1, st1) =>
          match processBatch w st1 l2 with
          | .error er => .error er
          | .ok (rs2, st2) => .ok (rs1 ++ rs2, st2) := by
  induction l1 generalizing st with
  | nil =>
    cases h : processBatch w st l2 with
    | error er => simp [processBatch, h]
    | ok p => simp [processBatch, h]
  | cons ev l ih =>
    simp only [List.cons_append, List.append_eq, processBatch]
    cases hpi : publish_internal w st ev with
    | error er => rfl
    | ok p =>
      obtain ⟨r, st1⟩ := p
      simp only [List.append_eq, ih st1]
      cases h1 : processBatch w st1 l with
      | error er => rfl
      | ok q =>
        obtain ⟨rs1, st2⟩ := q
        cases h2 : processBatch w st2 l2 with
        | error er => simp [h2]
        | ok q2 => simp [h2]

theorem WF_afterStore_core (w : BusWorld) (st : BusState) (e : Event)
    (h2 : ∀ c id, st.correlations.lookup c = some id → ∃ s ∈ st.events, s.id = id)
    (h3 : ∀ s ∈ st.events, s.id < st.tick)
    (h4 : (st.events.map (fun s => s.id)).Nodup) :
    (∀ c id, (afterStore w st e).correlations.lookup c = some id →
        ∃ s ∈ (afterStore w st e).events, s.id = id)
    ∧ (∀ s ∈ (afterStore w st e).events, s.id < (afterStore w st e).tick)
    ∧ ((afterStore w st e).events.map (fun s => s.id)).Nodup := by
  refine ⟨?_, ?_, ?_⟩
  · intro c id hc
    simp only [afterStore, List.lookup] at hc
    split at hc
    · injection hc with h
      exact ⟨mkStored w st e, by simp [afterStore], by simpa [mkStored] using h⟩
    · obtain ⟨s, hs, hid⟩ := h2 c id hc
      exact ⟨s, by simp [afterStore, hs], hid⟩
  · intro s hs
    simp only [afterStore, List.mem_append, List.mem_singleton] at hs
    rcases hs with h | h
    · exact Nat.lt_succ_of_lt (h3 s h)
    · subst h
      simp [mkStored, afterStore]
  · simp only [afterStore, List.map_append]
    rw [List.nodup_append]
    refine ⟨h4, by simp, ?_⟩
    intro x hx hx2
    simp only [List.map_cons, List.map_nil, List.mem_singleton, mkStored] at hx2
    obtain ⟨s, hs, hsid⟩ := List.mem_map.mp hx
    subst hx2
    exact absurd (hsid ▸ h3 s hs) (lt_irrefl _)

theorem publish_fresh_ok (w : BusWorld) (st : BusState) (e : Event)
    (hwf : WFBus st)
    (hfresh : st.correlations.lookup e.metadata.correlation_id = none)
    (hv : e.context.validate = .ok ()) :
    ∃ st', publish w st e = .ok (respOf (mkStored w st e), st')
      ∧ st'.events = st.events ++ [mkStored w st e]
      ∧ st'.correlations = (e.metadata.correlation_id, st.tick) :: st.correlations
      ∧ st'.tick = st.tick + 1
      ∧ WFBus st' := by
  obtain ⟨hw1, hw2, hw3, hw4⟩ := hwf
  simp only [publish]
  by_cases hlen : (st.pending ++ [e]).length ≥ batchSize
  · rw [if_pos hlen]
    obtain ⟨rs, hrs⟩ := processBatch_seen w { st with pending := [] } st.pending hw2 hw4
      (fun ev hev => hw1 ev hev)
    have hpi : publish_internal w { st with pending := [] } e
        = .ok (respOf (mkStored w st e), afterStore w { st with pending := [] } e) := by
      unfold publish_internal check_duplicate
      rw [show ({ st with pending := [] } : BusState).correlations.lookup
        e.metadata.correlation_id = none from hfresh]
      exact publishFresh_ok w _ e hv
    have hsingle : processBatch w { st with pending := [] } [e]
        = .ok ([respOf (mkStored w st e)], afterStore w { st with pending := [] } e) := by
      unfold processBatch
      rw [hpi]
      rfl
    simp only [processBatch_append w { st with pending := [] } st.pending [e], hrs,
      hsingle, List.getLast?_concat]
    refine ⟨afterStore w { st with pending := [] } e, rfl, rfl, rfl, rfl, ?_, ?_⟩
    · intro ev hev
      simp [afterStore] at hev
    · exact WF_afterStore_core w { st with pending := [] } e hw2 hw3 hw4
  · rw [if_neg hlen]
    have hpi : publish_internal w { st with pending := st.pending ++ [e] } e
        = .ok (respOf (mkStored w st e),
            afterStore w { st with pending := st.pending ++ [e] } e) := by
      unfold publish_internal check_duplicate
      rw [show ({ st with pending := st.pending ++ [e] } : BusState).correlations.lookup
        e.metadata.correlation_id = none from hfresh]
      exact publishFresh_ok w _ e hv
    refine ⟨afterStore w { st with pending := st.pending ++ [e] } e, hpi, rfl, rfl, rfl,
      ?_, ?_⟩
    · intro ev hev
      simp only [afterStore, List.mem_append, List.mem_singleton] at hev
      rcases hev with h | h
      · exact lookup_cons_isSome _ _ _ _ (hw1 ev h)
      · subst h
        simp [afterStore, List.lookup]
    · exact WF_afterStore_core w { st with pending := st.pending ++ [e] } e hw2 hw3 hw4

theorem publish_seen_ok (w : BusWorld) (st : BusState) (e : Event) (T : StoredEvent)
    (hwf : WFBus st)
    (hl : st.correlations.lookup e.metadata.correlation_id = some T.id)
    (hT : T ∈ st.events) :
    ∃ st', publish w st e = .ok (respOf T, st')
      ∧ st'.events = st.events ∧ st'.correlations = st.correlations
      ∧ st'.tick = st.tick ∧ WFBus st' := by
  obtain ⟨hw1, hw2, hw3, hw4⟩ := hwf
  simp only [publish]
  by_cases hlen : (st.pending ++ [e]).length ≥ batchSize
  · rw [if_pos hlen]
    obtain ⟨rs, hrs⟩ := processBatch_seen w { st with pending := [] } st.pending hw2 hw4
      (fun ev hev => hw1 ev hev)
    have hpi : publish_internal w { st with pending := [] } e
        = .ok (respOf T, { st with pending := [] }) :=
      publish_internal_seen w _ e T hw4 hl hT
    have hsingle : processBatch w { st with pending := [] } [e]
        = .ok ([respOf T], { st with pending := [] }) := by
      unfold processBatch
      rw [hpi]
      rfl
    simp only [processBatch_append w { st with pending := [] } st.pending [e], hrs,
      hsingle, List.getLast?_concat]
    exact ⟨{ st with pending := [] }, rfl, rfl, rfl, rfl, by intro ev hev; simp at hev,
      hw2, hw3, hw4⟩
  · rw [if_neg hlen]
    have hpi : publish_internal w { st with pending := st.pending ++ [e] } e
        = .ok (respOf T, { st with pending := st.pending ++ [e] }) :=
      publish_internal_seen w _ e T hw4 hl hT
    refine ⟨{ st with pending := st.pending ++ [e] }, hpi, rfl, rfl, rfl, ?_, hw2, hw3, hw4⟩
    intro ev hev
    simp only [List.mem_append, List.mem_singleton] at hev
    rcases hev with h | h
    · exact hw1 ev h
    · subst h
      simp [List.lookup, hl]

theorem ok_pair_inj {α β : Type} {x y : α × β}
    (h : (Except.ok x : Except String (α × β)) = .ok y) : x = y := by
  injection h

theorem WFBus_initial : WFBus initialBus := by
  unfold WFBus
  refine ⟨?_, ?_, ?_, ?_⟩
  · intro e he
    simp [initialBus] at he
  · intro c id hc
    simp [initialBus, List.lookup] at hc
  · intro s hs
    simp [initialBus] at hs
  · simp [initialBus]

/-! ## Claim C5 -/

/-- Claim C5: from any well-formed bus state, publishing the same event
twice (same `metadata.correlation_id`) returns identical `EventResponse`
values, the second publish appends nothing to the log, and afterwards
`check_duplicate` returns that shared event id. -/
theorem claim_c5_idempotent_publish (w : BusWorld) (st : BusState) (e : Event)
    (r1 r2 : EventResponse) (st1 st2 : BusState)
    (hwf : WFBus st)
    (hv : e.context.validate = .ok ())
    (h1 : publish w st e = .ok (r1, st1))
    (h2 : publish w st1 e = .ok (r2, st2)) :
    r1 = r2 ∧ st2.events = st1.events
    ∧ check_duplicate st2 e.metadata.correlation_id = some r1.event_id := by
  cases hl : st.correlations.lookup e.metadata.correlation_id with
  | none =>
    obtain ⟨st1', hpub, hev, hcor, _, hwf1⟩ := publish_fresh_ok w st e hwf hl hv
    have hpq := ok_pair_inj (h1.symm.trans hpub)
    have hr1 : r1 = respOf (mkStored w st e) := congrArg Prod.fst hpq
    have hst1 : st1 = st1' := congrArg Prod.snd hpq
    subst hst1
    have hl2 : st1.correlations.lookup e.metadata.correlation_id
        = some (mkStored w st e).id := by
      rw [hcor]
      simp [List.lookup, mkStored]
    have hT2 : mkStored w st e ∈ st1.events := by
      rw [hev]
      simp
    obtain ⟨st2', hpub2, hev2, hcor2, _, _⟩ :=
      publish_seen_ok w st1 e (mkStored w st e) hwf1 hl2 hT2
    have hpq2 := ok_pair_inj (h2.symm.trans hpub2)
    have hr2 : r2 = respOf (mkStored w st e) := congrArg Prod.fst hpq2
    have hst2 : st2 = st2' := congrArg Prod.snd hpq2
    subst hst2
    refine ⟨hr1.trans hr2.symm, hev2, ?_⟩
    unfold check_duplicate
    rw [hcor2, hcor]
    simp [List.lookup, hr1, respOf, mkStored]
  | some i =>
    obtain ⟨T, hT, hTid⟩ := hwf.2.1 _ _ hl
    have hlT : st.correlations.lookup e.metadata.correlation_id = some T.id := by
      rw [hTid]
      exact hl
    obtain ⟨st1', hpub, hev, hcor, _, hwf1⟩ := publish_seen_ok w st e T hwf hlT hT
    have hpq := ok_pair_inj (h1.symm.trans hpub)
    have hr1 : r1 = respOf T := congrArg Prod.fst hpq
    have hst1 : st1 = st1' := congrArg Prod.snd hpq
    subst hst1
    have hl2 : st1.correlations.lookup e.metadata.correlation_id = some T.id := by
      rw [hcor]
      exact hlT
    have hT2 : T ∈ st1.events := by
      rw [hev]
      exact hT
    obtain ⟨st2', hpub2, hev2, hcor2, _, _⟩ := publish_seen_ok w st1 e T hwf1 hl2 hT2
    have hpq2 := ok_pair_inj (h2.symm.trans hpub2)
    have hr2 : r2 = respOf T := congrArg Prod.fst hpq2
    have hst2 : st2 = st2' := congrArg Prod.snd hpq2
    subst hst2
    refine ⟨hr1.trans hr2.symm, hev2, ?_⟩
    unfold check_duplicate
    rw [hcor2, hcor, hr1]
    exact hlT

/-- Witness for C5: two publishes of the same event through the real
`publish` path from the empty bus. -/
theorem claim_c5_witness :
    c5r1 = c5r1 ∧ c5st2.events = c5st1.events
    ∧ check_duplicate c5st2 "c1" = some c5r1.event_id :=
  claim_c5_idempotent_publish busW initialBus ev1 c5r1 c5r1 c5st1 c5st2
    WFBus_initial rfl rfl rfl

/-! ## Claim C6 -/

theorem versionsConsistent_append (evts : List StoredEvent) (x : StoredEvent)
    (h : versionsConsistent evts)
    (hx : x.version = (evts.filter (fun s => s.stream_id = x.stream_id)).length + 1) :
    versionsConsistent (evts ++ [x]) := by
  intro i hi
  rw [List.length_append, List.length_singleton] at hi
  by_cases hlt : i < evts.length
  · rw [List.getElem_append_left hlt,
      List.take_append_of_le_length (Nat.le_of_lt hlt)]
    exact h i hlt
  · have hieq : i = evts.length := by omega
    subst hieq
    rw [List.getElem_concat_length evts x evts.length rfl,
      List.take_left]
    exact hx

theorem publishSeq_spec (w : BusWorld) (es : List Event) :
    ∀ (st : BusState) (s : String) (rs : List EventResponse) (stF : BusState),
    WFBus st →
    (∀ e ∈ es, e.stream_id = s) →
    (∀ e ∈ es, e.context.validate = .ok ()) →
    (∀ e ∈ es, st.correlations.lookup e.metadata.correlation_id = none) →
    (es.map (fun e => e.metadata.correlation_id)).Nodup →
    versionsConsistent st.events →
    publishSeq w st es = .ok (rs, stF) →
    rs.map (fun r => r.version)
      = List.range' ((st.events.filter (fun x => x.stream_id = s)).length + 1) es.length
    ∧ versionsConsistent stF.events := by
  induction es with
  | nil =>
    intro st s rs stF _ _ _ _ _ hvc hpub
    have hpq := ok_pair_inj ((show publishSeq w st [] = .ok ([], st) from rfl).symm.trans hpub)
    have hrs : ([] : List EventResponse) = rs := congrArg Prod.fst hpq
    have hstF : st = stF := congrArg Prod.snd hpq
    subst hstF
    rw [← hrs]
    exact ⟨rfl, hvc⟩
  | cons e es ih =>
    intro st s rs stF hwf hs hv hfresh hnd hvc hpub
    have hse : e.stream_id = s := hs e (List.mem_cons_self e es)
    obtain ⟨st1, hpub1, hev1, hcor1, _, hwf1⟩ := publish_fresh_ok w st e hwf
      (hfresh e (List.mem_cons_self e es)) (hv e (List.mem_cons_self e es))
    rw [List.map_cons, List.nodup_cons] at hnd
    simp only [publishSeq, hpub1] at hpub
    cases hrec : publishSeq w st1 es with
    | error er =>
      rw [hrec] at hpub
      cases hpub
    | ok q =>
      obtain ⟨rs2, stF2⟩ := q
      rw [hrec] at hpub
      have hpq := ok_pair_inj hpub
      have hrs : respOf (mkStored w st e) :: rs2 = rs := congrArg Prod.fst hpq
      have hstF : stF2 = stF := congrArg Prod.snd hpq
      subst hstF
      have hvc1 : versionsConsistent st1.events := by
        rw [hev1]
        exact versionsConsistent_append _ _ hvc (by simp [mkStored])
      have hcount : (st1.events.filter (fun x => x.stream_id = s)).length
          = (st.events.filter (fun x => x.stream_id = s)).length + 1 := by
        rw [hev1, List.filter_append]
        simp [mkStored, hse]
      have htail := ih st1 s rs2 stF2 hwf1
        (fun x hx => hs x (List.mem_cons_of_mem e hx))
        (fun x hx => hv x (List.mem_cons_of_mem e hx))
        (fun x hx => by
          have hne : (x.metadata.correlation_id == e.metadata.correlation_id) = false := by
            simp only [beq_eq_false_iff_ne, ne_eq]
            intro hceq
            exact hnd.1 (hceq ▸ List.mem_map.mpr ⟨x, hx, rfl⟩)
          rw [hcor1]
          simp only [List.lookup, hne]
          exact hfresh x (List.mem_cons_of_mem e hx))
        hnd.2 hvc1 hrec
      rw [← hrs]
      constructor
      · rw [List.map_cons, htail.1, hcount]
        have hver : (respOf (mkStored w st e)).version
            = (st.events.filter (fun x => x.stream_id = s)).length + 1 := by
          simp [respOf, mkStored, hse]
        rw [hver]
        rfl
      · exact htail.2

/-- Claim C6: from the empty bus, `n` serial publishes of
distinct-correlation events on one stream are assigned versions exactly
`1..n`, and every stored event's version is one plus the count of
previously stored events of the same stream. -/
theorem claim_c6_stream_versions (w : BusWorld) (es : List Event) (s : String)
    (rs : List EventResponse) (stF : BusState)
    (hs : ∀ e ∈ es, e.stream_id = s)
    (hv : ∀ e ∈ es, e.context.validate = .ok ())
    (hnd : (es.map (fun e => e.metadata.correlation_id)).Nodup)
    (hpub : publishSeq w initialBus es = .ok (rs, stF)) :
    rs.map (fun r => r.version) = List.range' 1 es.length
    ∧ versionsConsistent stF.events := by
  have h := publishSeq_spec w es initialBus s rs stF WFBus_initial hs hv
    (fun e _ => rfl) hnd (fun i hi => by simp [initialBus] at hi) hpub
  simpa [initialBus] using h

/-- Witness for C6: two serial publishes on stream `s` get versions 1 and 2. -/
theorem claim_c6_witness :
    ([{ event_id := 0, stream_id := "s", version := 1, timestamp := 100 },
      { event_id := 1, stream_id := "s", version := 2, timestamp := 101 }]
        : List EventResponse).map (fun r => r.version) = List.range' 1 2
    ∧ versionsConsistent c6stF.events := by
  refine claim_c6_stream_versions busW [ev1, ev2] "s" _ c6stF ?_ ?_ ?_ rfl
  · intro e he
    rcases List.mem_cons.mp he with rfl | he2
    · rfl
    · rcases List.mem_cons.mp he2 with rfl | he3
      · rfl
      · cases he3
  · intro e he
    rcases List.mem_cons.mp he with rfl | he2
    · rfl
    · rcases List.mem_cons.mp he2 with rfl | he3
      · rfl
      · cases he3
  · simp [ev1, ev2]

/-! ## Claim C1 -/

/-- Refutation input for C1, recorded as a code bug: a registered `fs.write`
tool with a `wasm://` entry, dispatched under `flags.read_only = true` with
a valid context, is handed to the WASI sandbox (second component `true`)
and returns the sandbox's result (here `success = true`), never the
read-only error — the read-only gate sits below the early-returning
`wasm://` branch and is dead code for wasm tools. -/
theorem claim_c1_readonly_gate_bypassed :
    execute c1world c1ex "fs.write" (Json.obj []) c1ctx = .ok (c1result, true)
    ∧ c1result.success = true
    ∧ c1result.error ≠ some "Write operation blocked by read_only flag" := by
  refine ⟨rfl, rfl, ?_⟩
  simp [c1result]

/-! ## Claim C4 -/

theorem runWasi_shape (w : ExecWorld) (ex : Executor) (p : String) (inp : Json)
    (ctx : ContextFrame) (tid : String) (r : ToolResult) (b : Bool)
    (h : runWasi w ex p inp ctx = .ok (r, b)) : failShape tid r := by
  unfold runWasi at h
  revert h
  cases w.wasiExec p inp ex.fs_allowlist <;>
    (intro h
     simp only [Except.ok.injEq, Prod.mk.injEq] at h
     obtain ⟨h3, h4⟩ := h
     subst h3
     intro hf
     simp_all)

theorem execWasm_shape (w : ExecWorld) (ex : Executor) (tid : String)
    (input : Json) (ctx : ContextFrame) (entry : String) (r : ToolResult) (b : Bool)
    (h : execWasm w ex tid input ctx entry = .ok (r, b)) : failShape tid r := by
  unfold execWasm at h
  try dsimp only at h
  repeat' split at h
  all_goals
    first
      | exact runWasi_shape w ex _ _ ctx tid r b h
      | (simp only [Except.ok.injEq, Prod.mk.injEq] at h
         obtain ⟨h3, h4⟩ := h
         subst h3
         intro hf
         simp_all [okR, errR])
      | simp at h

theorem execSessionCompression_shape (w : ExecWorld) (input : Json)
    (ctx : ContextFrame) (r : ToolResult) (b : Bool) (tid : String)
    (h : execSessionCompression w input ctx = .ok (r, b)) : failShape tid r := by
  unfold execSessionCompression at h
  try dsimp only at h
  repeat' split at h
  all_goals
    first
      | (simp only [Except.ok.injEq, Prod.mk.injEq] at h
         obtain ⟨h3, h4⟩ := h
         subst h3
         intro hf
         simp_all [okR, errR])
      | simp at h

theorem execBuiltin_shape (w : ExecWorld) (ex : Executor) (tid : String)
    (input : Json) (ctx : ContextFrame) (r : ToolResult) (b : Bool)
    (h : execBuiltin w ex tid input ctx = .ok (r, b)) : failShape tid r := by
  unfold execBuiltin at h
  try dsimp only at h
  repeat' split at h
  all_goals
    first
      | (simp only [Except.ok.injEq, Prod.mk.injEq] at h
         obtain ⟨h3, h4⟩ := h
         subst h3
         intro hf
         simp_all [okR, errR])
      | simp at h

/-- Claim C4 (amended): every `ToolResult` dispatch returns has exactly the
shapes `{success = true, output possibly present}` or `{success = false,
error present, output absent}` — except that `http.request` on an
HTTP-level failure (status ≥ 400) returns the response as output with no
error, and `process.execute` on a nonzero exit returns both the captured
output and the stderr error. -/
theorem claim_c4_result_shape (w : ExecWorld) (ex : Executor) (tid : String)
    (input : Json) (ctx : ContextFrame) (r : ToolResult) (b : Bool)
    (h : execute w ex tid input ctx = .ok (r, b)) : failShape tid r := by
  unfold execute at h
  try dsimp only at h
  repeat' split at h
  all_goals
    first
      | exact execWasm_shape w ex tid input ctx _ r b h
      | exact execSessionCompression_shape w input ctx r b tid h
      | exact execBuiltin_shape w ex tid input ctx r b h
      | (simp only [Except.ok.injEq, Prod.mk.injEq] at h
         obtain ⟨h3, h4⟩ := h
         subst h3
         intro hf
         simp_all [errR])
      | simp at h

/-- Counterexample to C4 as stated: `http.request` answering 404 yields
`success = false` with no error and the response as output, and
`process.execute` with a nonzero exit yields `success = false` with both
error and output present. -/
theorem claim_c4_counterexample :
    (∃ r b, execute c4world c4ex "http.request" c4input cFrame = Except.ok (r, b)
      ∧ r.success = false ∧ r.error = none ∧ r.output.isSome = true)
    ∧ (∃ r b, execute c4world c4ex "process.execute" c4pinput cFrame = Except.ok (r, b)
      ∧ r.success = false ∧ r.error.isSome = true ∧ r.output.isSome = true) :=
  ⟨⟨_, _, rfl, rfl, rfl, rfl⟩, ⟨_, _, rfl, rfl, rfl, rfl⟩⟩

/-- Witness for the amended C4 on a concrete run: the `db.query` stub's
failure result carries an error and no output. -/
theorem claim_c4_witness :
    failShape "db.query" (errR c4world cFrame
      "Database not configured. Set DATABASE_URL environment variable.") :=
  claim_c4_result_shape c4world c4ex "db.query" Json.null cFrame _ false rfl

end Nurones
